import Mathlib

/-!
# FLTK: scaled rounding of the graphics driver and FLUID's command line / code writer

A shallow embedding of

* `Fl_Scalable_Graphics_Driver::floor(int, float)` (`FL/Fl_Graphics_Driver.H`), over an
  executable model of IEEE-754 binary32 arithmetic (round to nearest, ties to even);
* `arg`, `set_modflag`, `set_filename`, `save_cb` and `write_code_files`
  (`fluid/fluid.cxx`), as state-passing functions over FLUID's global variables.
-/

namespace Fltk

/-! ## Binary32 arithmetic

Finite `float` values are modelled by the rationals they denote.  Every operation computes the
exact rational result and rounds it once (`FLT_EVAL_METHOD == 0`, no contraction).  An
operation whose rounded result is not finite yields `none`. -/

namespace F32

/-- The power `2 ^ e` for an integer exponent, as a rational. -/
def pow2 : Int → ℚ
  | Int.ofNat n => ((2 ^ n : Nat) : ℚ)
  | Int.negSucc n => 1 / ((2 ^ (n + 1) : Nat) : ℚ)

/-- Number of halvings that bring `n` below 2, bounded by the fuel. -/
def log2Fuel : Nat → Nat → Nat
  | 0, _ => 0
  | fuel + 1, n => if n < 2 then 0 else log2Fuel fuel (n / 2) + 1

/-- The integer part of the binary logarithm of a natural number (0 at 0). -/
def log2Nat (n : Nat) : Nat := log2Fuel n n

/-- The binary exponent `⌊log₂ q⌋` of a positive rational `q`. -/
def ilog2 (q : ℚ) : Int :=
  let e0 : Int := (log2Nat q.num.natAbs : Int) - (log2Nat q.den : Int)
  if pow2 e0 ≤ q then e0 else e0 - 1

/-- Rounding of a rational to the nearest integer, ties to the even one. -/
def rne (q : ℚ) : Int :=
  let f := ⌊q⌋
  let r := q - f
  if r < 1 / 2 then f else if 1 / 2 < r then f + 1 else if f % 2 = 0 then f else f + 1

/-- Exponent of the unit in the last place of a magnitude `q`: 24 significant bits, and
never below the subnormal spacing `2 ^ (-149)`. -/
def ulpExp (q : ℚ) : Int := max (ilog2 q - 23) (-149)

/-- Rounding of a non-negative magnitude to a multiple of its unit in the last place. -/
def roundMag (q : ℚ) : ℚ := (rne (q / pow2 (ulpExp q)) : ℚ) * pow2 (ulpExp q)

/-- Sign-symmetric rounding to the binary32 grid, with an unbounded exponent range above. -/
def roundFin (q : ℚ) : ℚ := if q < 0 then -(roundMag (-q)) else roundMag q

/-- Rounding of an exact result to `float`: `none` when the result overflows to infinity. -/
def round (q : ℚ) : Option ℚ :=
  if |roundFin q| < pow2 128 then some (roundFin q) else none

/-- A rational is a finite `float` when rounding leaves it unchanged. -/
def IsFloat (q : ℚ) : Prop := round q = some q

instance (q : ℚ) : Decidable (IsFloat q) := by unfold IsFloat; infer_instance

/-- Conversion `int → float`. -/
def ofInt (x : Int) : Option ℚ := round (x : ℚ)

/-- Single-precision product. -/
def mul (a b : ℚ) : Option ℚ := round (a * b)

/-- Single-precision sum. -/
def add (a b : ℚ) : Option ℚ := round (a + b)

/-- The literal `0.001f`. -/
def lit_0_001 : Option ℚ := round (1 / 1000)

/-- Truncation of a rational toward zero. -/
def trunc (f : ℚ) : Int := if f < 0 then -⌊-f⌋ else ⌊f⌋

/-- Least value of a 32-bit `int`. -/
def INT_MIN : Int := -2147483648

/-- Greatest value of a 32-bit `int`. -/
def INT_MAX : Int := 2147483647

/-- Conversion `float → int`: the fractional part is discarded; the behaviour is undefined
(`none`) when the truncated value is not representable in `int`. -/
def toInt (f : ℚ) : Option Int :=
  if INT_MIN ≤ trunc f ∧ trunc f ≤ INT_MAX then some (trunc f) else none

end F32

/-! ## `Fl_Scalable_Graphics_Driver::floor` -/

/-- The coordinate transformation matrix `struct matrix {double a, b, c, d, x, y;}`. -/
structure matrix where
  a : ℚ
  b : ℚ
  c : ℚ
  d : ℚ
  x : ℚ
  y : ℚ
  deriving DecidableEq

/-- The data members of `Fl_Graphics_Driver` that hold the scale, the matrix stack and the
clip stack pointer. -/
structure Fl_Graphics_Driver where
  scale_ : ℚ
  sptr : Int
  stack : List matrix
  m : matrix
  rstackptr : Int
  deriving DecidableEq

/-- The member `float scale() { return scale_; }`. -/
def Fl_Graphics_Driver.scale (d : Fl_Graphics_Driver) : ℚ := d.scale_

/-- The class `Fl_Scalable_Graphics_Driver : public Fl_Graphics_Driver`, which adds the
member `line_width_`. -/
structure Fl_Scalable_Graphics_Driver extends Fl_Graphics_Driver where
  line_width_ : Int
  deriving DecidableEq

namespace Fl_Scalable_Graphics_Driver

/-- The `float` value of the expression `x * s + 0.001f`: `x` is converted to `float`,
then the product and the sum are each rounded to `float`. -/
def floor_value (x : Int) (s : ℚ) : Option ℚ :=
  (F32.ofInt x).bind fun xf =>
  (F32.mul xf s).bind fun p =>
  F32.lit_0_001.bind fun c =>
  F32.add p c

/-- Embedding of
`static inline int floor(int x, float s) { return int(x * s + 0.001f); }`. -/
def floor (x : Int) (s : ℚ) : Option Int :=
  (floor_value x s).bind F32.toInt

/-- Embedding of the member overload
`inline int floor(int x) { return Fl_Scalable_Graphics_Driver::floor(x, scale()); }`. -/
def floor_this (d : Fl_Scalable_Graphics_Driver) (x : Int) : Option Int :=
  floor x d.toFl_Graphics_Driver.scale

end Fl_Scalable_Graphics_Driver

/-! ## FLUID: global variables (`fluid/fluid.cxx`) -/

/-- The character `s[k]` of a NUL-terminated string whose characters before the terminator
are `s`: the terminator itself at `k = s.length`, and no defined value behind it. -/
def charAt (s : List Char) (k : Nat) : Option Char :=
  if h : k < s.length then some (s.get ⟨k, h⟩)
  else if k = s.length then some (Char.ofNat 0)
  else none

/-- The global variables of `fluid.cxx` that the modelled functions read or write.  A
`const char *` is `none` when it is the null pointer. -/
structure Globals where
  G_debug : Int
  filename : Option (List Char)
  modflag : Int
  modflag_c : Int
  update_file : Int
  compile_file : Int
  compile_strings : Int
  batch_mode : Int
  header_file_set : Int
  code_file_set : Int
  header_file_name : Option (List Char)
  code_file_name : Option (List Char)
  i18n_program : List Char
  deriving DecidableEq

/-- The values the globals are initialised with. -/
def Globals.initial : Globals where
  G_debug := 0
  filename := none
  modflag := 0
  modflag_c := 0
  update_file := 0
  compile_file := 0
  compile_strings := 0
  batch_mode := 0
  header_file_set := 0
  code_file_set := 0
  header_file_name := some ['.', 'h']
  code_file_name := some ['.', 'c', 'x', 'x']
  i18n_program := []

/-! ## FLUID: command line -/

/-- The pointer `argv[k]`: one of the `argv.length` argument strings, the null pointer that
terminates the vector at `k = argv.length`, and no defined value elsewhere. -/
def argvAt (argv : List (List Char)) (k : Int) : Option (Option (List Char)) :=
  if k < 0 then none
  else if h : k.toNat < argv.length then some (some (argv.get ⟨k.toNat, h⟩))
  else if k.toNat = argv.length then some none
  else none

/-- The test `a[1] == c && !a[2]`, evaluated left to right. -/
def isSwitch (a : List Char) (c : Char) : Option Bool :=
  (charAt a 1).bind fun c1 =>
  if c1 = c then (charAt a 2).bind fun c2 => some (decide (c2 = Char.ofNat 0))
  else some false

/-- The test `a[1] == c && a[2] == d && !a[3]`, evaluated left to right. -/
def isSwitch2 (a : List Char) (c d : Char) : Option Bool :=
  (charAt a 1).bind fun c1 =>
  if c1 = c then (charAt a 2).bind fun c2 =>
    if c2 = d then (charAt a 3).bind fun c3 => some (decide (c3 = Char.ofNat 0))
    else some false
  else some false

/-- Embedding of `static int arg(int argc, char** argv, int& i)`.  The result is the returned
value, the index `i` after the call and the globals after the call; `none` stands for a read
outside an argument string or outside the argument vector. -/
def arg (argc : Int) (argv : List (List Char)) (i : Int) (g : Globals) :
    Option (Int × Int × Globals) :=
  (argvAt argv i).bind fun ptr => ptr.bind fun a =>
  (isSwitch a 'd').bind fun isd =>
  if isd then some (1, i + 1, { g with G_debug := 1 }) else
  (isSwitch a 'u').bind fun isu =>
  if isu then
    some (1, i + 1, { g with update_file := g.update_file + 1, batch_mode := g.batch_mode + 1 })
  else
  (isSwitch a 'c').bind fun isc =>
  if isc then
    some (1, i + 1, { g with compile_file := g.compile_file + 1, batch_mode := g.batch_mode + 1 })
  else
  (isSwitch2 a 'c' 's').bind fun iscs =>
  if iscs then
    some (1, i + 1, { g with compile_file := g.compile_file + 1,
                             compile_strings := g.compile_strings + 1,
                             batch_mode := g.batch_mode + 1 })
  else
  (isSwitch a 'o').bind fun iso =>
  if iso ∧ i + 1 < argc then
    (argvAt argv (i + 1)).bind fun name =>
    some (2, i + 2, { g with code_file_name := name, code_file_set := 1 })
  else
  (isSwitch a 'h').bind fun ish =>
  if ish then
    (argvAt argv (i + 1)).bind fun name =>
    some (2, i + 2, { g with header_file_name := name, header_file_set := 1 })
  else some (0, i, g)

/-- A sequence of calls of `arg`, each with its own `argc`, `argv` and index, threading the
globals from one call to the next. -/
def arg_calls : List (Int × List (List Char) × Int) → Globals → Option Globals
  | [], g => some g
  | (argc, argv, i) :: rest, g =>
    (arg argc argv i g).bind fun r => arg_calls rest r.2.2

/-- The call `arg(argc, argv, i)` is given a switch: `argv[i]` is a string that starts with
`-` and, being a C string, holds no NUL before its terminator. -/
def IsSwitchCall (c : Int × List (List Char) × Int) : Prop :=
  ∃ t : List Char, argvAt c.2.1 c.2.2 = some (some ('-' :: t)) ∧ Char.ofNat 0 ∉ t

/-- The call `arg(argc, argv, i)` is given one of the switches `-u`, `-c`, `-cs`. -/
def GivesBatch (c : Int × List (List Char) × Int) : Prop :=
  argvAt c.2.1 c.2.2 = some (some ['-', 'u']) ∨
  argvAt c.2.1 c.2.2 = some (some ['-', 'c']) ∨
  argvAt c.2.1 c.2.2 = some (some ['-', 'c', 's'])

/-! ## FLUID: modification flags, saving, code generation -/

/-- Embedding of `void set_modflag(int mf, int mfc)`, restricted to its effect on the
globals `modflag` and `modflag_c`; the remainder of the function relabels the main window,
restarts a timer and toggles a menu item. -/
def set_modflag (mf mfc : Int) (g : Globals) : Globals :=
  let g1 : Globals := if mf ≠ -1 then { g with modflag := mf } else g
  let mfc1 : Int := if mf ≠ -1 ∧ mfc = -1 ∧ mf = 1 then mf else mfc
  if mfc1 ≠ -1 then { g1 with modflag_c := mfc1 } else g1

/-- Embedding of `void set_filename(const char *c)`; the call `set_modflag(modflag)` uses the
default `-1` for `mfc`. -/
def set_filename (c : Option (List Char)) (g : Globals) : Globals :=
  let g1 : Globals := { g with filename := c }
  set_modflag g1.modflag (-1) g1

/-- What lies outside `fluid.cxx`: the size `FL_PATH_MAX` of the name buffers, the two
filename helpers of the library, the answers of the file chooser and of the dialogs, the file
system, and the writers of the design file and of the code files. -/
structure Env where
  FL_PATH_MAX : Nat
  fl_filename_name : List Char → List Char
  fl_filename_setext : List Char → Nat → List Char → List Char
  chooser_show : Int
  chooser_filename : List Char
  fl_access : List Char → Int
  fl_choice : Int
  write_file : List Char → Int
  write_code : List Char → List Char → Int
  completion_button_value : Int

/-- The library call `strlcpy(dst, src, size)`: `dst` receives at most `size - 1` characters. -/
def strlcpy (src : List Char) (size : Nat) : List Char := src.take (size - 1)

/-- Embedding of `void save_cb(Fl_Widget *, void *v)`; `v` is the pointer argument read as
an integer. -/
def save_cb (E : Env) (v : Int) (g : Globals) : Globals :=
  let ask : Bool := decide (v ≠ 0) || decide (g.filename = none) || decide (g.filename = some [])
  if ask then
    if E.chooser_show ≠ 0 then g
    else if E.fl_access E.chooser_filename = 0 ∧ E.fl_choice = 0 then g
    else
      let g1 : Globals := if v ≠ 2 then set_filename (some E.chooser_filename) g else g
      if E.write_file E.chooser_filename = 0 then g1
      else if v ≠ 2 then set_modflag 0 1 g1 else g1
  else
    if E.write_file (g.filename.getD []) = 0 then g
    else if v ≠ 2 then set_modflag 0 1 g else g

/-- How a call ends: it returns a value, it leaves the program through `exit`, or it
dereferences a null pointer. -/
inductive Outcome where
  | returned (value : Int) (g : Globals)
  | exited (code : Int) (g : Globals)
  | undefined
  deriving DecidableEq

/-- The name that `write_code_files` builds in `cname` (from `code_file_name`) or in `hname`
(from `header_file_name`) for the design file `fname`. -/
def generated_name (E : Env) (fname name : List Char) : List Char :=
  if name.head? = some '.' ∧ '/' ∉ name then
    E.fl_filename_setext (strlcpy (E.fl_filename_name fname) E.FL_PATH_MAX) E.FL_PATH_MAX name
  else strlcpy name E.FL_PATH_MAX

/-- Embedding of `int write_code_files()`.  The changes of the working directory and the
messages are left out. -/
def write_code_files (E : Env) (g : Globals) : Outcome :=
  let g1 : Globals := if g.filename = none then save_cb E 0 g else g
  match g1.filename with
  | none => Outcome.returned 1 g1
  | some fname =>
    let program : List Char :=
      E.fl_filename_setext (strlcpy (E.fl_filename_name fname) E.FL_PATH_MAX) E.FL_PATH_MAX []
    let g2 : Globals := { g1 with i18n_program := program }
    match g2.code_file_name, g2.header_file_name with
    | some cfn, some hfn =>
      let cname := generated_name E fname cfn
      let hname := generated_name E fname hfn
      let x := E.write_code cname hname
      if g2.batch_mode ≠ 0 then
        if x = 0 then Outcome.exited 1 g2 else Outcome.returned 0 g2
      else
        if x = 0 then Outcome.returned 0 g2
        else Outcome.returned 0 (set_modflag (-1) 0 g2)
    | _, _ => Outcome.undefined

/-- The file name that `save_cb` hands to `write_file`, when the call reaches
`write_file(c)`: the answer of the file chooser after the dialogs, or the current `filename`;
`none` when `save_cb` returns before it. -/
def save_cb_file (E : Env) (v : Int) (g : Globals) : Option (List Char) :=
  let ask : Bool := decide (v ≠ 0) || decide (g.filename = none) || decide (g.filename = some [])
  if ask then
    if E.chooser_show ≠ 0 then none
    else if E.fl_access E.chooser_filename = 0 ∧ E.fl_choice = 0 then none
    else some E.chooser_filename
  else some (g.filename.getD [])

/-- The arguments `cname` and `hname` of the call `write_code(cname, hname)` in
`write_code_files`, when the run reaches it. -/
def write_code_names (E : Env) (g : Globals) : Option (List Char × List Char) :=
  let g1 : Globals := if g.filename = none then save_cb E 0 g else g
  match g1.filename, g1.code_file_name, g1.header_file_name with
  | some fname, some cfn, some hfn =>
    some (generated_name E fname cfn, generated_name E fname hfn)
  | _, _, _ => none

/-! ## `Fl_Graphics_Driver`: stack capacities, matrix stack, scale factor -/

/-- The macro `#define FL_REGION_STACK_SIZE 10`. -/
def FL_REGION_STACK_SIZE : Int := 10

/-- The macro `#define FL_MATRIX_STACK_SIZE 32`. -/
def FL_MATRIX_STACK_SIZE : Int := 32

namespace Fl_Graphics_Driver

/-- The member `static const int matrix_stack_size = FL_MATRIX_STACK_SIZE;`. -/
def matrix_stack_size : Int := FL_MATRIX_STACK_SIZE

/-- The member `static const int region_stack_max = FL_REGION_STACK_SIZE - 1;`. -/
def region_stack_max : Int := FL_REGION_STACK_SIZE - 1

/-- The number of elements of the member `matrix stack[FL_MATRIX_STACK_SIZE];`. -/
def stack_length : Int := FL_MATRIX_STACK_SIZE

/-- The number of elements of the member `Fl_Region rstack[FL_REGION_STACK_SIZE];`. -/
def rstack_length : Int := FL_REGION_STACK_SIZE

/-- Modelled from the spec: `push_matrix` is declared in `FL/Fl_Graphics_Driver.H` and defined
outside `src/`.  It saves the current matrix on the bounded stack; a push beyond the capacity
is rejected and leaves the driver as it is. -/
def push_matrix (d : Fl_Graphics_Driver) : Fl_Graphics_Driver :=
  if matrix_stack_size ≤ d.sptr then d
  else { d with stack := d.stack.set d.sptr.toNat d.m, sptr := d.sptr + 1 }

/-- Modelled from the spec: `pop_matrix` is declared in `FL/Fl_Graphics_Driver.H` and defined
outside `src/`.  It restores the matrix saved last; a pop with an empty stack is rejected and
leaves the driver as it is. -/
def pop_matrix (d : Fl_Graphics_Driver) : Fl_Graphics_Driver :=
  if d.sptr ≤ 0 then d
  else { d with sptr := d.sptr - 1, m := (d.stack[(d.sptr - 1).toNat]?).getD d.m }

/-- Modelled from the spec: the least scale factor that the setter stores, "a minimum
positive epsilon, e.g. 1/64". -/
def scale_min : ℚ := 1 / 64

/-- Modelled from the spec: the setter `virtual void scale(float f)` is declared in
`FL/Fl_Graphics_Driver.H` and defined outside `src/`.  It rejects a zero or negative scale by
clamping the stored factor to the minimum positive value. -/
def scale_set (f : ℚ) (d : Fl_Graphics_Driver) : Fl_Graphics_Driver :=
  { d with scale_ := if f < scale_min then scale_min else f }

end Fl_Graphics_Driver

/-- A call of `push_matrix` or of `pop_matrix`. -/
inductive MatrixCall where
  | push
  | pop
  deriving DecidableEq

/-- A sequence of `push_matrix` and `pop_matrix` calls on one driver. -/
def matrix_calls : List MatrixCall → Fl_Graphics_Driver → Fl_Graphics_Driver
  | [], d => d
  | MatrixCall.push :: rest, d => matrix_calls rest d.push_matrix
  | MatrixCall.pop :: rest, d => matrix_calls rest d.pop_matrix

/-- The number of `push_matrix` calls in a sequence. -/
def pushes (calls : List MatrixCall) : Nat := calls.count MatrixCall.push

/-- The number of `pop_matrix` calls in a sequence. -/
def pops (calls : List MatrixCall) : Nat := calls.count MatrixCall.pop

/-- A sequence of calls is balanced when none of its initial segments holds more pops than
pushes. -/
def Balanced (calls : List MatrixCall) : Prop :=
  ∀ n, n ≤ calls.length → pops (calls.take n) ≤ pushes (calls.take n)

/-- A sequence of calls, started with `depth` saved matrices, never nests deeper than `cap`:
after each of its initial segments at most `cap` matrices are saved. -/
def NestsWithin (cap : Int) (depth : Int) (calls : List MatrixCall) : Prop :=
  ∀ n, n ≤ calls.length →
    depth + (pushes (calls.take n) : Int) - (pops (calls.take n) : Int) ≤ cap

instance (calls : List MatrixCall) : Decidable (Balanced calls) := by
  unfold Balanced; infer_instance

instance (cap depth : Int) (calls : List MatrixCall) :
    Decidable (NestsWithin cap depth calls) := by
  unfold NestsWithin; infer_instance

/-! ## A concrete environment for evaluating the code writer -/

/-- Modelled from the spec: `fl_filename_name` is a library function outside `src/`; it yields
the base name of a path, which is what follows the last `/`. -/
def sample_filename_name (path : List Char) : List Char :=
  (path.reverse.takeWhile fun c => decide (c ≠ '/')).reverse

/-- Modelled from the spec: `fl_filename_setext` is a library function outside `src/`; it
replaces the extension of the name in a buffer of `buflen` bytes, the extension starting at
the last `.` of the name (at its end when there is none). -/
def sample_filename_setext (buf : List Char) (buflen : Nat) (ext : List Char) : List Char :=
  let stem : List Char :=
    if '.' ∈ buf then (buf.reverse.dropWhile fun c => decide (c ≠ '.')).reverse.dropLast
    else buf
  stem ++ ext.take (buflen - stem.length - 1)

/-- An environment with `FL_PATH_MAX == 2048` in which the file chooser is cancelled and
`write_code` fails unless the code file is named `ok.cxx`. -/
def sample_env : Env where
  FL_PATH_MAX := 2048
  fl_filename_name := sample_filename_name
  fl_filename_setext := sample_filename_setext
  chooser_show := 1
  chooser_filename := []
  fl_access := fun _ => 1
  fl_choice := 0
  write_file := fun _ => 1
  write_code := fun cname _ => if cname = ['o', 'k', '.', 'c', 'x', 'x'] then 1 else 0
  completion_button_value := 0

/-- The initial globals after the design file `design.fl` has been loaded. -/
def sample_globals : Globals :=
  { Globals.initial with filename := some ['d', 'e', 's', 'i', 'g', 'n', '.', 'f', 'l'] }

/-- The argument vector of `fluid -d -cs -o out.cxx design.fl`. -/
def sample_argv : List (List Char) :=
  [['f', 'l', 'u', 'i', 'd'], ['-', 'd'], ['-', 'c', 's'], ['-', 'o'],
   ['o', 'u', 't', '.', 'c', 'x', 'x'], ['d', 'e', 's', 'i', 'g', 'n', '.', 'f', 'l']]

/-- The calls of `arg` at the three switches of `sample_argv`. -/
def sample_calls : List (Int × List (List Char) × Int) :=
  [(6, sample_argv, 1), (6, sample_argv, 2), (6, sample_argv, 3)]

/-- A driver on which 2 matrices are saved, with a stack of `FL_MATRIX_STACK_SIZE` entries. -/
def sample_driver : Fl_Graphics_Driver where
  scale_ := 1
  sptr := 2
  stack := List.replicate 32 ⟨1, 0, 0, 1, 0, 0⟩
  m := ⟨2, 0, 0, 2, 5, 7⟩
  rstackptr := 0

/-- An environment in which the file chooser answers `new.fl`, no such file exists, and
`write_file` succeeds. -/
def sample_env_save : Env :=
  { sample_env with chooser_show := 0, chooser_filename := ['n', 'e', 'w', '.', 'f', 'l'] }

/-- The globals of a modified design `design.fl` whose code file is named `ok.cxx`. -/
def sample_globals_modified : Globals :=
  { sample_globals with modflag := 1, modflag_c := 1, code_file_name := some ['o', 'k', '.', 'c', 'x', 'x'] }

/-- The globals of `design.fl` in batch mode, the code being out of date and the code file
named `ok.cxx`. -/
def sample_globals_batch : Globals :=
  { sample_globals with batch_mode := 1, modflag_c := 1, code_file_name := some ['o', 'k', '.', 'c', 'x', 'x'] }

/-- The globals of a modified design without a file name whose code file is named `ok.cxx`. -/
def sample_globals_unsaved : Globals :=
  { Globals.initial with modflag := 1, modflag_c := 1, code_file_name := some ['o', 'k', '.', 'c', 'x', 'x'] }

/-! ## Facts about the binary32 model -/

namespace F32

theorem pow2_eq_zpow (e : Int) : pow2 e = (2 : ℚ) ^ e := by
  cases e with
  | ofNat n => simp [pow2]
  | negSucc n =>
    simp only [pow2, zpow_negSucc, Nat.cast_pow, Nat.cast_ofNat, one_div]

theorem pow2_pos (e : Int) : 0 < pow2 e := by
  rw [pow2_eq_zpow]; positivity

theorem pow2_mono {a b : Int} (h : a ≤ b) : pow2 a ≤ pow2 b := by
  rw [pow2_eq_zpow, pow2_eq_zpow]
  exact zpow_le_zpow_right₀ (by norm_num) h

theorem pow2_add (a b : Int) : pow2 (a + b) = pow2 a * pow2 b := by
  rw [pow2_eq_zpow, pow2_eq_zpow, pow2_eq_zpow, zpow_add₀ (by norm_num)]

theorem log2Fuel_le (fuel n : Nat) (hn : 1 ≤ n) : 2 ^ log2Fuel fuel n ≤ n := by
  induction fuel generalizing n with
  | zero => simpa [log2Fuel] using hn
  | succ f ih =>
    unfold log2Fuel
    split
    · simpa using hn
    · rename_i h
      have h2 : 1 ≤ n / 2 := by omega
      have := ih (n / 2) h2
      rw [pow_succ]
      omega

theorem lt_log2Fuel (fuel n : Nat) (hn : n ≤ fuel) : n < 2 ^ (log2Fuel fuel n + 1) := by
  induction fuel generalizing n with
  | zero =>
    have : n = 0 := by omega
    subst this; simp
  | succ f ih =>
    unfold log2Fuel
    split
    · rename_i h; simpa using h
    · rename_i h
      have h2 : n / 2 ≤ f := by omega
      have := ih (n / 2) h2
      rw [pow_succ]
      omega

theorem log2Nat_le (n : Nat) (hn : 1 ≤ n) : 2 ^ log2Nat n ≤ n := log2Fuel_le n n hn

theorem lt_log2Nat (n : Nat) : n < 2 ^ (log2Nat n + 1) := lt_log2Fuel n n le_rfl

theorem pow2_ilog2_le (q : ℚ) (hq : 0 < q) : pow2 (ilog2 q) ≤ q := by
  unfold ilog2
  simp only
  split
  · assumption
  · have hnum : 0 < q.num := Rat.num_pos.mpr hq
    have hn1 : 1 ≤ q.num.natAbs := by omega
    have ha := log2Nat_le q.num.natAbs hn1
    have hb := lt_log2Nat q.den
    have hnq : ((q.num.natAbs : ℕ) : ℚ) = (q.num : ℚ) := by
      have h0 : ((q.num.natAbs : ℕ) : ℤ) = q.num := Int.natAbs_of_nonneg hnum.le
      calc ((q.num.natAbs : ℕ) : ℚ) = (((q.num.natAbs : ℕ) : ℤ) : ℚ) := (Int.cast_natCast _).symm
        _ = (q.num : ℚ) := by rw [h0]
    have hqe : q = (q.num.natAbs : ℚ) / (q.den : ℚ) := by
      rw [hnq]; exact (Rat.num_div_den q).symm
    have hd : (0 : ℚ) < (q.den : ℚ) := by exact_mod_cast q.den_pos
    have ha' : ((2 : ℚ) ^ log2Nat q.num.natAbs) ≤ (q.num.natAbs : ℚ) := by exact_mod_cast ha
    have hb' : (q.den : ℚ) ≤ (2 : ℚ) ^ (log2Nat q.den + 1) := by exact_mod_cast hb.le
    have he : ((log2Nat q.num.natAbs : ℤ) - (log2Nat q.den : ℤ) - 1)
        = (log2Nat q.num.natAbs : ℤ) + -((log2Nat q.den + 1 : ℕ) : ℤ) := by push_cast; ring
    rw [pow2_eq_zpow, he, zpow_add₀ (by norm_num), zpow_neg, zpow_natCast, zpow_natCast]
    rw [← div_eq_mul_inv]
    conv_rhs => rw [hqe]
    exact div_le_div₀ (by positivity) ha' hd hb'

theorem pow2_ulpExp_le (q : ℚ) (hq : 0 < q) :
    pow2 (ulpExp q) ≤ q / 8388608 + pow2 (-149) := by
  unfold ulpExp
  rcases le_total (ilog2 q - 23) (-149) with h | h
  · rw [max_eq_right h]
    have : 0 ≤ q / 8388608 := by positivity
    linarith
  · rw [max_eq_left h]
    have h1 : pow2 (ilog2 q - 23) = pow2 (ilog2 q) * pow2 (-23) := by
      rw [← pow2_add]; rfl
    have h2 : pow2 (-23) = 1 / 8388608 := by
      rw [pow2_eq_zpow]; norm_num [zpow_neg]
    have h3 := pow2_ilog2_le q hq
    have h4 := pow2_pos (-149)
    rw [h1, h2]
    linarith

theorem rne_le (t : ℚ) : (rne t : ℚ) ≤ t + 1 / 2 := by
  have hf : ((⌊t⌋ : ℤ) : ℚ) ≤ t := Int.floor_le t
  unfold rne
  simp only
  split_ifs with h1 h2 h3
  · linarith
  · push_cast; linarith [Int.lt_floor_add_one t]
  · linarith
  · push_cast
    have : t - ⌊t⌋ = 1 / 2 := le_antisymm (not_lt.mp h2) (not_lt.mp h1)
    linarith

theorem le_rne (t : ℚ) : t - 1 / 2 ≤ (rne t : ℚ) := by
  have hf : t < ((⌊t⌋ : ℤ) : ℚ) + 1 := Int.lt_floor_add_one t
  unfold rne
  simp only
  split_ifs with h1 h2 h3
  · linarith
  · push_cast; linarith
  · have : t - ⌊t⌋ = 1 / 2 := le_antisymm (not_lt.mp h2) (not_lt.mp h1)
    linarith
  · push_cast; linarith

theorem rne_nonneg (t : ℚ) (ht : 0 ≤ t) : 0 ≤ rne t := by
  have hf : 0 ≤ ⌊t⌋ := Int.floor_nonneg.mpr ht
  unfold rne
  simp only
  split_ifs <;> omega

theorem roundMag_nonneg (q : ℚ) (hq : 0 ≤ q) : 0 ≤ roundMag q := by
  unfold roundMag
  have hu := pow2_pos (ulpExp q)
  have : 0 ≤ rne (q / pow2 (ulpExp q)) := rne_nonneg _ (by positivity)
  have : (0 : ℚ) ≤ (rne (q / pow2 (ulpExp q)) : ℚ) := by exact_mod_cast this
  positivity

theorem roundMag_le (q : ℚ) (hq : 0 ≤ q) :
    roundMag q ≤ q + q / 16777216 + pow2 (-150) := by
  have hu := pow2_pos (ulpExp q)
  have h1 := rne_le (q / pow2 (ulpExp q))
  have h2 : roundMag q ≤ q + pow2 (ulpExp q) / 2 := by
    unfold roundMag
    calc (rne (q / pow2 (ulpExp q)) : ℚ) * pow2 (ulpExp q)
        ≤ (q / pow2 (ulpExp q) + 1 / 2) * pow2 (ulpExp q) :=
          mul_le_mul_of_nonneg_right h1 hu.le
      _ = q + pow2 (ulpExp q) / 2 := by field_simp; ring
  have h150 : pow2 (-150) = pow2 (-149) / 2 := by
    rw [pow2_eq_zpow, pow2_eq_zpow]
    rw [show (-150 : ℤ) = -149 + -1 by norm_num, zpow_add₀ (by norm_num)]
    norm_num
  rcases hq.eq_or_lt with h0 | hpos
  · subst h0
    have : roundMag 0 = 0 := by simp [roundMag, rne]
    rw [this]
    have := pow2_pos (-150)
    linarith
  · have h3 := pow2_ulpExp_le q hpos
    rw [h150]
    linarith

theorem le_roundMag (q : ℚ) (hq : 0 ≤ q) :
    q - q / 16777216 - pow2 (-150) ≤ roundMag q := by
  have hu := pow2_pos (ulpExp q)
  have h1 := le_rne (q / pow2 (ulpExp q))
  have h2 : q - pow2 (ulpExp q) / 2 ≤ roundMag q := by
    unfold roundMag
    calc q - pow2 (ulpExp q) / 2 = (q / pow2 (ulpExp q) - 1 / 2) * pow2 (ulpExp q) := by
          field_simp; ring
      _ ≤ (rne (q / pow2 (ulpExp q)) : ℚ) * pow2 (ulpExp q) :=
          mul_le_mul_of_nonneg_right h1 hu.le
  have h150 : pow2 (-150) = pow2 (-149) / 2 := by
    rw [pow2_eq_zpow, pow2_eq_zpow]
    rw [show (-150 : ℤ) = -149 + -1 by norm_num, zpow_add₀ (by norm_num)]
    norm_num
  rcases hq.eq_or_lt with h0 | hpos
  · subst h0
    have : roundMag 0 = 0 := by simp [roundMag, rne]
    rw [this]
    have := pow2_pos (-150)
    linarith
  · have h3 := pow2_ulpExp_le q hpos
    rw [h150]
    linarith

theorem pow2_neg150_le : pow2 (-150) ≤ 1 / 100000000000000000000 := by decide!

theorem pow2_128_ge : (4294967296 : ℚ) * 4294967296 ≤ pow2 128 := by decide!

theorem round_of_nonneg (q : ℚ) (hq : 0 ≤ q) (hb : q ≤ 4294967296) :
    ∃ r, round q = some r ∧ 0 ≤ r ∧ r ≤ q + q / 16777216 + 1 / 100000000000000000000 ∧
      q - q / 16777216 - 1 / 100000000000000000000 ≤ r := by
  have h0 := roundMag_nonneg q hq
  have h1 := roundMag_le q hq
  have h1' := le_roundMag q hq
  have h2 := pow2_neg150_le
  have h3 := pow2_128_ge
  have hfin : roundFin q = roundMag q := by
    unfold roundFin; rw [if_neg (not_lt.mpr hq)]
  refine ⟨roundMag q, ?_, h0, by linarith, by linarith⟩
  unfold round
  rw [hfin, abs_of_nonneg h0, if_pos]
  linarith

theorem trunc_of_nonneg (v : ℚ) (hv : 0 ≤ v) : trunc v = ⌊v⌋ := by
  unfold trunc; rw [if_neg (not_lt.mpr hv)]

theorem toInt_of_nonneg (v : ℚ) (hv : 0 ≤ v) (hb : v < 2147483648) : toInt v = some ⌊v⌋ := by
  have h1 : 0 ≤ ⌊v⌋ := Int.floor_nonneg.mpr hv
  have h2 : ⌊v⌋ < 2147483648 := by
    have : ((⌊v⌋ : ℤ) : ℚ) < ((2147483648 : ℤ) : ℚ) := by
      push_cast; exact lt_of_le_of_lt (Int.floor_le v) hb
    exact_mod_cast this
  unfold toInt
  rw [trunc_of_nonneg v hv, if_pos]
  unfold INT_MIN INT_MAX
  constructor <;> omega

theorem lit_0_001_eq : lit_0_001 = some (8589935 / 8589934592) := by decide!

theorem round_zero : round 0 = some 0 := by decide!

/-- Rounding is defined on `[-2^32, 2^32]`, keeps the sign and has a relative error of at
most `2^(-24)` next to an absolute error far below the subnormal spacing. -/
theorem round_spec (q : ℚ) (hb : |q| ≤ 4294967296) :
    ∃ r, round q = some r ∧ |r - q| ≤ |q| / 16777216 + 1 / 100000000000000000000 ∧
      (0 ≤ q → 0 ≤ r) ∧ (q ≤ 0 → r ≤ 0) := by
  rcases lt_trichotomy q 0 with hneg | hzero | hpos
  · have hq : 0 ≤ -q := by linarith
    have habs : |q| = -q := abs_of_neg hneg
    have h0 := roundMag_nonneg (-q) hq
    have h1 := roundMag_le (-q) hq
    have h1' := le_roundMag (-q) hq
    have h2 := pow2_neg150_le
    have h3 := pow2_128_ge
    rw [habs] at hb
    have hfin : roundFin q = -roundMag (-q) := by
      unfold roundFin; rw [if_pos hneg]
    refine ⟨-roundMag (-q), ?_, ?_, fun h => absurd h (not_le.mpr hneg), fun _ => by linarith⟩
    · unfold round
      rw [hfin, abs_neg, abs_of_nonneg h0, if_pos]
      linarith
    · rw [habs, abs_le]
      constructor <;> linarith
  · subst hzero
    exact ⟨0, round_zero, by norm_num, fun _ => le_rfl, fun _ => le_rfl⟩
  · have habs : |q| = q := abs_of_pos hpos
    rw [habs] at hb
    obtain ⟨r, e, hr0, hr1, hr2⟩ := round_of_nonneg q hpos.le hb
    refine ⟨r, e, ?_, fun _ => hr0, fun h => absurd h (not_le.mpr hpos)⟩
    rw [habs, abs_le]
    constructor <;> linarith

theorem toInt_of_abs_lt (v : ℚ) (hb : |v| < 2147483648) : ∃ r, toInt v = some r := by
  rw [abs_lt] at hb
  rcases le_or_lt 0 v with h | h
  · exact ⟨_, toInt_of_nonneg v h hb.2⟩
  · have h1 : 0 ≤ ⌊-v⌋ := Int.floor_nonneg.mpr (by linarith)
    have h2 : ⌊-v⌋ < 2147483648 := by
      have : ((⌊-v⌋ : ℤ) : ℚ) < ((2147483648 : ℤ) : ℚ) := by
        push_cast; exact lt_of_le_of_lt (Int.floor_le (-v)) (by linarith)
      exact_mod_cast this
    refine ⟨-⌊-v⌋, ?_⟩
    unfold toInt trunc
    rw [if_pos h, if_pos]
    unfold INT_MIN INT_MAX
    constructor <;> omega

end F32

namespace Fl_Scalable_Graphics_Driver

theorem floor_value_of_nonneg (x : Int) (s : ℚ) (hx : 0 ≤ x) (hxmax : x ≤ 2147483647)
    (hs : 0 < s) (hb : (x : ℚ) * s ≤ 2147482624) :
    ∃ v, floor_value x s = some v ∧ 0 ≤ v ∧ v < 2147483648 ∧
      |v - ((x : ℚ) * s + 1 / 1000)| ≤ ((x : ℚ) * s + 1) / 4194304 := by
  have hxq : (0 : ℚ) ≤ (x : ℚ) := by exact_mod_cast hx
  rcases hx.eq_or_lt with h0 | hpos
  · subst h0
    refine ⟨8589935 / 8589934592, ?_, by norm_num, by norm_num, ?_⟩
    · have e1 : F32.ofInt 0 = some 0 := by decide!
      have e2 : F32.mul 0 s = some 0 := by
        unfold F32.mul; rw [zero_mul]; decide!
      have e3 : F32.add 0 (8589935 / 8589934592) = some (8589935 / 8589934592) := by decide!
      simp only [floor_value, e1, Option.some_bind, e2, F32.lit_0_001_eq, e3]
    · rw [abs_le]; constructor <;> norm_num
  · have hx1 : (1 : ℚ) ≤ (x : ℚ) := by exact_mod_cast hpos
    have hsle : s ≤ (x : ℚ) * s := by nlinarith
    have hxle : (x : ℚ) ≤ 4294967296 := by
      have : (x : ℚ) ≤ ((2147483647 : ℤ) : ℚ) := by exact_mod_cast hxmax
      push_cast at this
      linarith
    obtain ⟨xf, e1, hxf0, hxf, hxf'⟩ := F32.round_of_nonneg (x : ℚ) hxq hxle
    have hprod0 : 0 ≤ xf * s := by positivity
    have hprod : xf * s ≤ (x : ℚ) * s + (x : ℚ) * s / 16777216
        + s / 100000000000000000000 := by
      have := mul_le_mul_of_nonneg_right hxf hs.le
      calc xf * s ≤ ((x : ℚ) + (x : ℚ) / 16777216 + 1 / 100000000000000000000) * s := this
        _ = (x : ℚ) * s + (x : ℚ) * s / 16777216 + s / 100000000000000000000 := by ring
    have hprod' : (x : ℚ) * s - (x : ℚ) * s / 16777216
        - s / 100000000000000000000 ≤ xf * s := by
      have := mul_le_mul_of_nonneg_right hxf' hs.le
      calc (x : ℚ) * s - (x : ℚ) * s / 16777216 - s / 100000000000000000000
          = ((x : ℚ) - (x : ℚ) / 16777216 - 1 / 100000000000000000000) * s := by ring
        _ ≤ xf * s := this
    obtain ⟨p, e2, hp0, hp, hp'⟩ := F32.round_of_nonneg (xf * s) hprod0 (by linarith)
    obtain ⟨v, e3, hv0, hv, hv'⟩ := F32.round_of_nonneg (p + 8589935 / 8589934592)
      (by positivity) (by linarith)
    refine ⟨v, ?_, hv0, by linarith, ?_⟩
    · simp only [floor_value, F32.ofInt, F32.mul, F32.add, e1,
        Option.some_bind, e2, F32.lit_0_001_eq, e3]
    · rw [abs_le]; constructor <;> linarith

/-- For an `int` `x` and a scale `s > 0` with `|x * s| ≤ 2^31 - 1024` the expression
`x * s + 0.001f` has a finite value, within the range of `int`. -/
theorem floor_value_defined (x : Int) (s : ℚ) (hxmin : -2147483648 ≤ x)
    (hxmax : x ≤ 2147483647) (hs : 0 < s) (hb : |(x : ℚ) * s| ≤ 2147482624) :
    ∃ v, floor_value x s = some v ∧ |v| < 2147483648 := by
  have hxabs : |(x : ℚ)| ≤ 4294967296 := by
    have h1 : ((-2147483648 : ℤ) : ℚ) ≤ (x : ℚ) := by exact_mod_cast hxmin
    have h2 : (x : ℚ) ≤ ((2147483647 : ℤ) : ℚ) := by exact_mod_cast hxmax
    push_cast at h1 h2
    rw [abs_le]; constructor <;> linarith
  obtain ⟨xf, e1, hxf, hxf0, hxf1⟩ := F32.round_spec (x : ℚ) hxabs
  have hA : |(x : ℚ) * s| = |(x : ℚ)| * s := by rw [abs_mul, abs_of_pos hs]
  have hA0 : 0 ≤ |(x : ℚ)| := abs_nonneg _
  -- the rounded factor times the scale stays next to the exact product
  have hprod : |xf * s - (x : ℚ) * s| ≤
      |(x : ℚ) * s| / 16777216 + |(x : ℚ) * s| / 100000000000000000000 := by
    rcases eq_or_ne x 0 with hx0 | hx0
    · subst hx0
      have : xf = 0 := le_antisymm (hxf1 (by norm_num)) (hxf0 (by norm_num))
      subst this
      norm_num
    · have hx1 : (1 : ℚ) ≤ |(x : ℚ)| := by
        have : (1 : ℤ) ≤ |x| := Int.one_le_abs hx0
        have h2 : ((1 : ℤ) : ℚ) ≤ ((|x| : ℤ) : ℚ) := by exact_mod_cast this
        simpa using h2
      have hsle : s ≤ |(x : ℚ)| * s := by nlinarith
      have : |xf * s - (x : ℚ) * s| = |xf - (x : ℚ)| * s := by
        rw [← sub_mul, abs_mul, abs_of_pos hs]
      rw [this, hA]
      have h3 := mul_le_mul_of_nonneg_right hxf hs.le
      calc |xf - (x : ℚ)| * s
          ≤ (|(x : ℚ)| / 16777216 + 1 / 100000000000000000000) * s := h3
        _ = |(x : ℚ)| * s / 16777216 + s / 100000000000000000000 := by ring
        _ ≤ |(x : ℚ)| * s / 16777216 + |(x : ℚ)| * s / 100000000000000000000 := by
            linarith
  have hP := abs_nonneg ((x : ℚ) * s)
  have hprodabs : |xf * s| ≤ |(x : ℚ) * s| + |(x : ℚ) * s| / 16777216
      + |(x : ℚ) * s| / 100000000000000000000 := by
    have := abs_sub_abs_le_abs_sub (xf * s) ((x : ℚ) * s)
    linarith
  obtain ⟨p, e2, hp, _, _⟩ := F32.round_spec (xf * s) (by linarith)
  have hpabs : |p| ≤ |xf * s| + |xf * s| / 16777216 + 1 / 100000000000000000000 := by
    have := abs_sub_abs_le_abs_sub p (xf * s)
    linarith
  have hsum : |p + 8589935 / 8589934592| ≤ |p| + 8589935 / 8589934592 := by
    have := abs_add p (8589935 / 8589934592)
    rwa [abs_of_pos (by norm_num : (0 : ℚ) < 8589935 / 8589934592)] at this
  obtain ⟨v, e3, hv, _, _⟩ := F32.round_spec (p + 8589935 / 8589934592) (by linarith)
  have hvabs : |v| ≤ |p + 8589935 / 8589934592| + |p + 8589935 / 8589934592| / 16777216
      + 1 / 100000000000000000000 := by
    have := abs_sub_abs_le_abs_sub v (p + 8589935 / 8589934592)
    linarith
  refine ⟨v, ?_, by linarith⟩
  simp only [floor_value, F32.ofInt, F32.mul, F32.add, e1, Option.some_bind, e2,
    F32.lit_0_001_eq, e3]

end Fl_Scalable_Graphics_Driver

/-! ## Claims about `Fl_Scalable_Graphics_Driver::floor` -/

namespace Fl_Scalable_Graphics_Driver

/-- C1 (counterexample): for `x = -1` and the scale `s = 1.5`, a positive `float`, the code
returns `-1`: the value `-1.499` is truncated toward zero.  The mathematical floor of
`x * s + 0.001`, exact or in single precision, is `-2`.  Two further inputs show what single
precision and the range of `int` add: `floor(16777217, 1)` is `16777216`, and
`floor(2147483647, 2)` converts a value that no `int` holds. -/
theorem floor_neg_one_is_not_floor :
    (0 : ℚ) < 3 / 2 ∧ F32.IsFloat (3 / 2) ∧
    floor (-1) (3 / 2) = some (-1) ∧
    ⌊((-1 : ℤ) : ℚ) * (3 / 2) + 1 / 1000⌋ = -2 ∧
    (floor_value (-1) (3 / 2)).map Int.floor = some (-2) ∧
    floor 16777217 1 = some 16777216 ∧
    ⌊((16777217 : ℤ) : ℚ) * 1 + 1 / 1000⌋ = 16777217 ∧
    floor 2147483647 2 = none := by
  decide!

/-- C1 (amended): for every `int` `x ≥ 0` and every scale `s > 0` with `x * s ≤ 2^31 - 1024`,
`floor(x, s)` returns the mathematical floor of the single-precision value `v` of
`x * s + 0.001f`, and `v` differs from the exact `x * s + 0.001` by at most
`(x * s + 1) / 2^22`. -/
theorem floor_eq_floor_of_nonneg (x : Int) (s : ℚ) (hx : 0 ≤ x) (hxmax : x ≤ F32.INT_MAX)
    (hs : 0 < s) (hb : (x : ℚ) * s ≤ 2147482624) :
    ∃ v, floor_value x s = some v ∧ floor x s = some ⌊v⌋ ∧
      |v - ((x : ℚ) * s + 1 / 1000)| ≤ ((x : ℚ) * s + 1) / 4194304 := by
  obtain ⟨v, e, hv0, hvb, herr⟩ := floor_value_of_nonneg x s hx hxmax hs hb
  refine ⟨v, e, ?_, herr⟩
  unfold floor
  rw [e, Option.some_bind]
  exact F32.toInt_of_nonneg v hv0 hvb

/-- Witness of C1 (amended) at `x = 2`, `s = 1.5`. -/
theorem floor_eq_floor_of_nonneg_witness :
    ∃ v, floor_value 2 (3 / 2) = some v ∧ floor 2 (3 / 2) = some ⌊v⌋ ∧
      |v - (((2 : ℤ) : ℚ) * (3 / 2) + 1 / 1000)| ≤ (((2 : ℤ) : ℚ) * (3 / 2) + 1) / 4194304 :=
  floor_eq_floor_of_nonneg 2 (3 / 2) (by decide) (by decide) (by norm_num) (by norm_num)

/-- C2 (failing input): for `x = -1` and `s = 1` the exact product is the integer `-1`, and
the code returns `0`. -/
theorem floor_neg_one_scale_one :
    F32.IsFloat 1 ∧ ((-1 : ℤ) : ℚ) * 1 = ((-1 : ℤ) : ℚ) ∧ floor (-1) 1 = some 0 := by
  decide!

/-- C3: `floor(2, 1.5)` returns exactly 3. -/
theorem floor_two_three_halves : floor 2 (3 / 2) = some 3 := by
  decide!

/-- C4: the static `floor(x, s)` is determined by its two arguments: equal arguments give
equal results, and the member overload `floor(x)` of any two drivers, whatever their line
width, matrix and stacks, returns that same result once their scale is `s`.  For an `int`
`x` and a scale `s > 0` with `|x * s| ≤ 2^31 - 1024` the result is an integer. -/
theorem floor_pure (d₁ d₂ : Fl_Scalable_Graphics_Driver) (x₁ x₂ : Int) (s₁ s₂ : ℚ)
    (hx : x₁ = x₂) (hs : s₁ = s₂) :
    floor x₁ s₁ = floor x₂ s₂ ∧
    floor_this { d₁ with scale_ := s₁ } x₁ = floor x₁ s₁ ∧
    floor_this { d₂ with scale_ := s₂ } x₂ = floor x₁ s₁ ∧
    (F32.INT_MIN ≤ x₁ → x₁ ≤ F32.INT_MAX → 0 < s₁ → |(x₁ : ℚ) * s₁| ≤ 2147482624 →
      ∃ r : Int, floor x₁ s₁ = some r ∧ floor x₂ s₂ = some r) := by
  subst hx hs
  refine ⟨rfl, rfl, rfl, ?_⟩
  intro hmin hmax hpos hb
  obtain ⟨v, e, hv⟩ := floor_value_defined x₁ s₁ hmin hmax hpos hb
  obtain ⟨r, hr⟩ := F32.toInt_of_abs_lt v hv
  have : floor x₁ s₁ = some r := by
    unfold floor
    rw [e, Option.some_bind, hr]
  exact ⟨r, this, this⟩

/-- Witness of C4: two drivers that differ in every member other than the scale, at
`x = -7` and `s = 1.5`. -/
theorem floor_pure_witness :
    floor_this { (⟨⟨1, 0, [], ⟨1, 0, 0, 1, 0, 0⟩, 0⟩, 0⟩ : Fl_Scalable_Graphics_Driver)
      with scale_ := 3 / 2 } (-7) = floor (-7) (3 / 2) ∧
    floor_this { (⟨⟨2, 1, [⟨1, 0, 0, 1, 0, 0⟩], ⟨2, 0, 0, 2, 5, 5⟩, 3⟩, 4⟩ :
      Fl_Scalable_Graphics_Driver) with scale_ := 3 / 2 } (-7) = floor (-7) (3 / 2) ∧
    ∃ r : Int, floor (-7) (3 / 2) = some r ∧ floor (-7) (3 / 2) = some r :=
  have h := floor_pure
    (⟨⟨1, 0, [], ⟨1, 0, 0, 1, 0, 0⟩, 0⟩, 0⟩ : Fl_Scalable_Graphics_Driver)
    (⟨⟨2, 1, [⟨1, 0, 0, 1, 0, 0⟩], ⟨2, 0, 0, 2, 5, 5⟩, 3⟩, 4⟩ : Fl_Scalable_Graphics_Driver)
    (-7) (-7) (3 / 2) (3 / 2) rfl rfl
  ⟨h.2.1, h.2.2.1,
    h.2.2.2 (by decide) (by decide) (by norm_num) (by rw [abs_le]; constructor <;> norm_num)⟩

end Fl_Scalable_Graphics_Driver

/-! ## Facts about `arg` -/

theorem argvAt_some_some {argv : List (List Char)} {i : Int} {a : List Char}
    (h : argvAt argv i = some (some a)) : 0 ≤ i ∧ i.toNat < argv.length := by
  unfold argvAt at h
  split_ifs at h with h1 h2 h3
  · exact ⟨not_lt.mp h1, h2⟩
  · simp at h

theorem argvAt_succ_defined {argv : List (List Char)} {i : Int}
    (h0 : 0 ≤ i) (h1 : i.toNat < argv.length) : ∃ ptr, argvAt argv (i + 1) = some ptr := by
  have ht : (i + 1).toNat = i.toNat + 1 := by omega
  unfold argvAt
  rw [if_neg (by omega)]
  by_cases h2 : (i + 1).toNat < argv.length
  · rw [dif_pos h2]; exact ⟨_, rfl⟩
  · rw [dif_neg h2, if_pos (by omega)]; exact ⟨_, rfl⟩

theorem isSwitch_defined (a : List Char) (ha : a ≠ []) (c : Char) (hc : Char.ofNat 0 ≠ c) :
    ∃ b, isSwitch a c = some b := by
  match a, ha with
  | [_], _ => exact ⟨false, by simp [isSwitch, charAt, hc]⟩
  | [_, y], _ =>
    by_cases hy : y = c
    · exact ⟨true, by simp [isSwitch, charAt, hy]⟩
    · exact ⟨false, by simp [isSwitch, charAt, hy]⟩
  | _ :: y :: z :: _, _ =>
    by_cases hy : y = c
    · exact ⟨decide (z = Char.ofNat 0), by simp [isSwitch, charAt, hy]⟩
    · exact ⟨false, by simp [isSwitch, charAt, hy]⟩

theorem isSwitch2_defined (a : List Char) (ha : a ≠ []) (c d : Char)
    (hc : Char.ofNat 0 ≠ c) (hd : Char.ofNat 0 ≠ d) : ∃ b, isSwitch2 a c d = some b := by
  match a, ha with
  | [_], _ => exact ⟨false, by simp [isSwitch2, charAt, hc]⟩
  | [_, y], _ =>
    by_cases hy : y = c
    · exact ⟨false, by simp [isSwitch2, charAt, hy, hd]⟩
    · exact ⟨false, by simp [isSwitch2, charAt, hy]⟩
  | [_, y, z], _ =>
    by_cases hy : y = c
    · by_cases hz : z = d
      · exact ⟨true, by simp [isSwitch2, charAt, hy, hz]⟩
      · exact ⟨false, by simp [isSwitch2, charAt, hy, hz]⟩
    · exact ⟨false, by simp [isSwitch2, charAt, hy]⟩
  | _ :: y :: z :: w :: _, _ =>
    by_cases hy : y = c
    · by_cases hz : z = d
      · exact ⟨decide (w = Char.ofNat 0), by simp [isSwitch2, charAt, hy, hz]⟩
      · exact ⟨false, by simp [isSwitch2, charAt, hy, hz]⟩
    · exact ⟨false, by simp [isSwitch2, charAt, hy]⟩

theorem isSwitch_cons (x : Char) (t : List Char) (c : Char) (hc : Char.ofNat 0 ≠ c)
    (hn : Char.ofNat 0 ∉ t) : isSwitch (x :: t) c = some (decide (t = [c])) := by
  match t, hn with
  | [], _ => simp [isSwitch, charAt, hc]
  | [y], _ =>
    by_cases hy : y = c
    · simp [isSwitch, charAt, hy]
    · simp [isSwitch, charAt, hy]
  | y :: z :: r, hn =>
    have hz : z ≠ Char.ofNat 0 := by
      intro h; apply hn; simp [h]
    by_cases hy : y = c
    · simp [isSwitch, charAt, hy, hz]
    · simp [isSwitch, charAt, hy]

theorem isSwitch2_cons (x : Char) (t : List Char) (c d : Char) (hc : Char.ofNat 0 ≠ c)
    (hd : Char.ofNat 0 ≠ d) (hn : Char.ofNat 0 ∉ t) :
    isSwitch2 (x :: t) c d = some (decide (t = [c, d])) := by
  match t, hn with
  | [], _ => simp [isSwitch2, charAt, hc]
  | [y], _ =>
    by_cases hy : y = c
    · simp [isSwitch2, charAt, hy, hd]
    · simp [isSwitch2, charAt, hy]
  | [y, z], _ =>
    by_cases hy : y = c
    · by_cases hz : z = d
      · simp [isSwitch2, charAt, hy, hz]
      · simp [isSwitch2, charAt, hy, hz]
    · simp [isSwitch2, charAt, hy]
  | y :: z :: w :: r, hn =>
    have hw : w ≠ Char.ofNat 0 := by
      intro h; apply hn; simp [h]
    by_cases hy : y = c
    · by_cases hz : z = d
      · simp [isSwitch2, charAt, hy, hz, hw]
      · simp [isSwitch2, charAt, hy, hz]
    · simp [isSwitch2, charAt, hy]

/-- The effect of one call of `arg` on the four counters, for an argument `x :: t`. -/
theorem arg_counters (argc : Int) (argv : List (List Char)) (i : Int) (g : Globals)
    (x : Char) (t : List Char) (hi : argvAt argv i = some (some (x :: t)))
    (hn : Char.ofNat 0 ∉ t) :
    ∃ r i2 g2, arg argc argv i g = some (r, i2, g2) ∧
      g2.update_file = g.update_file + (if t = ['u'] then 1 else 0) ∧
      g2.compile_file = g.compile_file + (if t = ['c'] ∨ t = ['c', 's'] then 1 else 0) ∧
      g2.compile_strings = g.compile_strings + (if t = ['c', 's'] then 1 else 0) ∧
      g2.batch_mode = g.batch_mode
        + (if t = ['u'] ∨ t = ['c'] ∨ t = ['c', 's'] then 1 else 0) := by
  obtain ⟨h0, h1⟩ := argvAt_some_some hi
  obtain ⟨ptr, hptr⟩ := argvAt_succ_defined h0 h1
  unfold arg
  simp only [hi, Option.some_bind, hptr,
    isSwitch_cons x t 'd' (by decide) hn, isSwitch_cons x t 'u' (by decide) hn,
    isSwitch_cons x t 'c' (by decide) hn, isSwitch_cons x t 'o' (by decide) hn,
    isSwitch_cons x t 'h' (by decide) hn,
    isSwitch2_cons x t 'c' 's' (by decide) (by decide) hn]
  by_cases hd : t = ['d']
  · subst hd; exact ⟨1, _, _, rfl, by simp, by simp, by simp, by simp⟩
  by_cases hu : t = ['u']
  · subst hu; exact ⟨1, _, _, rfl, by simp, by simp, by simp, by simp⟩
  by_cases hc : t = ['c']
  · subst hc; exact ⟨1, _, _, rfl, by simp, by simp, by simp, by simp⟩
  by_cases hcs : t = ['c', 's']
  · subst hcs; exact ⟨1, _, _, rfl, by simp, by simp, by simp, by simp⟩
  simp only [hd, hu, hc, hcs, decide_False, Bool.false_eq_true, if_false, or_self, add_zero]
  by_cases hlt : decide (t = ['o']) = true ∧ i + 1 < argc
  · rw [if_pos hlt]; exact ⟨2, _, _, rfl, rfl, rfl, rfl, rfl⟩
  rw [if_neg hlt]
  by_cases hh : t = ['h']
  · subst hh; exact ⟨2, _, _, rfl, rfl, rfl, rfl, rfl⟩
  · simp only [hh, decide_False, Bool.false_eq_true, if_false]
    exact ⟨0, _, _, rfl, rfl, rfl, rfl, rfl⟩

theorem givesBatch_iff (c : Int × List (List Char) × Int) (t : List Char)
    (h : argvAt c.2.1 c.2.2 = some (some ('-' :: t))) :
    GivesBatch c ↔ (t = ['u'] ∨ t = ['c'] ∨ t = ['c', 's']) := by
  unfold GivesBatch
  rw [h]
  simp

/-- The counters after a sequence of switch calls, from any state in which the counters are
non-negative and `batch_mode == update_file + compile_file`. -/
theorem arg_calls_counters (calls : List (Int × List (List Char) × Int))
    (h : ∀ c ∈ calls, IsSwitchCall c) (g0 : Globals)
    (hu : 0 ≤ g0.update_file) (hc : 0 ≤ g0.compile_file)
    (hs : 0 ≤ g0.compile_strings ∧ g0.compile_strings ≤ g0.compile_file)
    (hb : g0.batch_mode = g0.update_file + g0.compile_file) :
    ∃ g, arg_calls calls g0 = some g ∧
      0 ≤ g.update_file ∧ 0 ≤ g.compile_file ∧
      (0 ≤ g.compile_strings ∧ g.compile_strings ≤ g.compile_file) ∧
      g.batch_mode = g.update_file + g.compile_file ∧
      g.batch_mode ≤ g0.batch_mode + calls.length ∧
      (g.batch_mode ≠ 0 ↔ (g0.batch_mode ≠ 0 ∨ ∃ c ∈ calls, GivesBatch c)) := by
  induction calls generalizing g0 with
  | nil =>
    refine ⟨g0, rfl, hu, hc, hs, hb, by simp, by simp⟩
  | cons c rest ih =>
    obtain ⟨argc, argv, i⟩ := c
    obtain ⟨t, ht, hn⟩ := h (argc, argv, i) (List.mem_cons_self _ _)
    obtain ⟨r, i2, g1, e1, e2, e3, e4, e5⟩ := arg_counters argc argv i g0 '-' t ht hn
    have hgb := givesBatch_iff (argc, argv, i) t ht
    have hrest : ∀ c ∈ rest, IsSwitchCall c := fun c hc => h c (List.mem_cons_of_mem _ hc)
    have hu1 : 0 ≤ g1.update_file := by rw [e2]; split_ifs <;> omega
    have hc1 : 0 ≤ g1.compile_file := by rw [e3]; split_ifs <;> omega
    have hs1 : 0 ≤ g1.compile_strings ∧ g1.compile_strings ≤ g1.compile_file := by
      rw [e3, e4]
      by_cases hcs : t = ['c', 's']
      · simp only [hcs, or_true, if_true]; omega
      · simp only [hcs, or_false, if_false]; split_ifs <;> omega
    have hb1 : g1.batch_mode = g1.update_file + g1.compile_file := by
      rw [e2, e3, e5, hb]
      by_cases h1 : t = ['u']
      · subst h1; simp; omega
      · by_cases h2 : t = ['c'] ∨ t = ['c', 's']
        · simp only [h1, h2, if_true, if_false, false_or]; omega
        · simp only [h1, h2, if_false, false_or]; omega
    obtain ⟨g, f1, f2, f3, f4, f5, f6, f7⟩ := ih hrest g1 hu1 hc1 hs1 hb1
    have hnn0 : 0 ≤ g0.batch_mode := by omega
    refine ⟨g, ?_, f2, f3, f4, f5, ?_, ?_⟩
    · simp only [arg_calls, e1, Option.some_bind, f1]
    · rw [e5] at f6
      simp only [List.length_cons, Nat.cast_add, Nat.cast_one]
      split_ifs at f6 <;> omega
    · rw [f7, e5]
      simp only [List.exists_mem_cons_iff, hgb]
      by_cases h3 : t = ['u'] ∨ t = ['c'] ∨ t = ['c', 's']
      · simp only [h3, if_true, true_or, or_true, iff_true]
        left; omega
      · simp only [h3, if_false, add_zero, false_or]

/-! ## Claims about FLUID -/

/-- C5 (the code on the failing runs): whenever the design has a file name, FLUID is
interactive (`batch_mode == 0`) and `write_code(cname, hname)` reports failure,
`write_code_files` returns 0 and leaves `modflag` and `modflag_c` as they were. -/
theorem write_code_files_failure_returns_zero (E : Env) (g : Globals)
    (fname cfn hfn : List Char) (hf : g.filename = some fname)
    (hc : g.code_file_name = some cfn) (hh : g.header_file_name = some hfn)
    (hb : g.batch_mode = 0)
    (hx : E.write_code (generated_name E fname cfn) (generated_name E fname hfn) = 0) :
    ∃ g2, write_code_files E g = Outcome.returned 0 g2 ∧
      g2.modflag = g.modflag ∧ g2.modflag_c = g.modflag_c := by
  simp [write_code_files, hf, hc, hh, hb, hx]

/-- Witness of C5: `design.fl` is loaded, the default names `.cxx` and `.h` are in force and
`write_code` fails. -/
theorem write_code_files_failure_returns_zero_witness :
    ∃ g2, write_code_files sample_env sample_globals = Outcome.returned 0 g2 ∧
      g2.modflag = sample_globals.modflag ∧ g2.modflag_c = sample_globals.modflag_c :=
  write_code_files_failure_returns_zero sample_env sample_globals
    ['d', 'e', 's', 'i', 'g', 'n', '.', 'f', 'l'] ['.', 'c', 'x', 'x'] ['.', 'h']
    rfl rfl rfl rfl (by decide)

/-- C6 (failing input): with `argv = {"fluid", "-h"}`, `argc = 2` and `i = 1`, `arg` accepts
`-h`: it returns 2, stores the null pointer `argv[2]` in `header_file_name`, sets
`header_file_set` and leaves `i = 3`, which is greater than `argc`. -/
theorem arg_h_last :
    arg 2 [['f', 'l', 'u', 'i', 'd'], ['-', 'h']] 1 Globals.initial =
      some (2, 3, { Globals.initial with header_file_name := none, header_file_set := 1 }) ∧
    ¬ ((3 : Int) ≤ 2) := by
  decide

/-- C7: for every argument vector, every index `i` of a non-empty argument and every state
of the globals, `arg` returns a value `r` that is 0, 1 or 2, the index after the call is
`i + r`, and when `r` is 0 the globals are unchanged. -/
theorem arg_returns_arguments_used (argc : Int) (argv : List (List Char)) (i : Int)
    (g : Globals) (a : List Char) (hi : argvAt argv i = some (some a)) (ha : a ≠ []) :
    ∃ r i2 g2, arg argc argv i g = some (r, i2, g2) ∧ (r = 0 ∨ r = 1 ∨ r = 2) ∧
      i2 = i + r ∧ (r = 0 → g2 = g) := by
  obtain ⟨h0, h1⟩ := argvAt_some_some hi
  obtain ⟨ptr, hptr⟩ := argvAt_succ_defined h0 h1
  obtain ⟨bd, hd⟩ := isSwitch_defined a ha 'd' (by decide)
  obtain ⟨bu, hu⟩ := isSwitch_defined a ha 'u' (by decide)
  obtain ⟨bc, hc⟩ := isSwitch_defined a ha 'c' (by decide)
  obtain ⟨bo, ho⟩ := isSwitch_defined a ha 'o' (by decide)
  obtain ⟨bh, hh⟩ := isSwitch_defined a ha 'h' (by decide)
  obtain ⟨bcs, hcs⟩ := isSwitch2_defined a ha 'c' 's' (by decide) (by decide)
  unfold arg
  simp only [hi, Option.some_bind, hd, hu, hc, hcs, ho, hh, hptr]
  cases bd
  swap
  · exact ⟨1, _, _, rfl, by decide, rfl, fun h => absurd h (by decide)⟩
  cases bu
  swap
  · exact ⟨1, _, _, rfl, by decide, rfl, fun h => absurd h (by decide)⟩
  cases bc
  swap
  · exact ⟨1, _, _, rfl, by decide, rfl, fun h => absurd h (by decide)⟩
  cases bcs
  swap
  · exact ⟨1, _, _, rfl, by decide, rfl, fun h => absurd h (by decide)⟩
  by_cases hlt : bo = true ∧ i + 1 < argc
  · simp only [Bool.false_eq_true, if_false, if_pos hlt]
    exact ⟨2, _, _, rfl, by decide, rfl, fun h => absurd h (by decide)⟩
  cases bh
  swap
  · simp only [Bool.false_eq_true, if_false, if_neg hlt, if_true]
    exact ⟨2, _, _, rfl, by decide, rfl, fun h => absurd h (by decide)⟩
  simp only [Bool.false_eq_true, if_false, if_neg hlt]
  exact ⟨0, i, g, rfl, by decide, by simp, fun _ => rfl⟩

/-- Witness of C7: `fluid -o x.cxx` at `i = 1`. -/
theorem arg_returns_arguments_used_witness :
    ∃ r i2 g2, arg 3 [['f', 'l', 'u', 'i', 'd'], ['-', 'o'], ['x', '.', 'c', 'x', 'x']] 1
        Globals.initial = some (r, i2, g2) ∧ (r = 0 ∨ r = 1 ∨ r = 2) ∧
      i2 = 1 + r ∧ (r = 0 → g2 = Globals.initial) :=
  arg_returns_arguments_used 3 [['f', 'l', 'u', 'i', 'd'], ['-', 'o'], ['x', '.', 'c', 'x', 'x']]
    1 Globals.initial ['-', 'o'] (by decide) (by decide)

/-- C8 (counterexample): the name `./out.cxx` starts with `.`, and for the design
`design.fl` the generated file name is `./out.cxx` itself, not the base name `design.fl`
with its extension replaced by `./out.cxx`. -/
theorem generated_name_dot_slash :
    (['.', '/', 'o', 'u', 't', '.', 'c', 'x', 'x'] : List Char).head? = some '.' ∧
    generated_name sample_env ['d', 'e', 's', 'i', 'g', 'n', '.', 'f', 'l']
      ['.', '/', 'o', 'u', 't', '.', 'c', 'x', 'x']
      = ['.', '/', 'o', 'u', 't', '.', 'c', 'x', 'x'] ∧
    sample_env.fl_filename_setext
      (strlcpy (sample_env.fl_filename_name ['d', 'e', 's', 'i', 'g', 'n', '.', 'f', 'l'])
        sample_env.FL_PATH_MAX)
      sample_env.FL_PATH_MAX ['.', '/', 'o', 'u', 't', '.', 'c', 'x', 'x']
      = ['d', 'e', 's', 'i', 'g', 'n', '.', '/', 'o', 'u', 't', '.', 'c', 'x', 'x'] := by
  decide

/-- C8 (amended): a name that starts with `.` and holds no `/` is treated as an extension:
the generated file name is the base name of the design file, copied into a buffer of
`FL_PATH_MAX` bytes, with its extension replaced by that name.  Every other name shorter than
`FL_PATH_MAX` is the generated file name verbatim. -/
theorem generated_name_spec (E : Env) (fname name : List Char) :
    (name.head? = some '.' → '/' ∉ name →
      generated_name E fname name =
        E.fl_filename_setext (strlcpy (E.fl_filename_name fname) E.FL_PATH_MAX)
          E.FL_PATH_MAX name) ∧
    ((name.head? ≠ some '.' ∨ '/' ∈ name) → name.length < E.FL_PATH_MAX →
      generated_name E fname name = name) := by
  constructor
  · intro h1 h2
    unfold generated_name
    rw [if_pos ⟨h1, h2⟩]
  · intro h1 h2
    have hneg : ¬ (name.head? = some '.' ∧ '/' ∉ name) := by
      rintro ⟨h3, h4⟩
      rcases h1 with h1 | h1
      · exact h1 h3
      · exact h4 h1
    unfold generated_name strlcpy
    rw [if_neg hneg]
    exact List.take_of_length_le (by omega)

/-- Witness of C8 (amended): the default extension `.cxx` and the file name `out.cxx` for the
design `design.fl`. -/
theorem generated_name_spec_witness :
    generated_name sample_env ['d', 'e', 's', 'i', 'g', 'n', '.', 'f', 'l'] ['.', 'c', 'x', 'x']
      = sample_env.fl_filename_setext
          (strlcpy (sample_env.fl_filename_name ['d', 'e', 's', 'i', 'g', 'n', '.', 'f', 'l'])
            sample_env.FL_PATH_MAX)
          sample_env.FL_PATH_MAX ['.', 'c', 'x', 'x'] ∧
    generated_name sample_env ['d', 'e', 's', 'i', 'g', 'n', '.', 'f', 'l']
      ['o', 'u', 't', '.', 'c', 'x', 'x'] = ['o', 'u', 't', '.', 'c', 'x', 'x'] :=
  ⟨(generated_name_spec sample_env ['d', 'e', 's', 'i', 'g', 'n', '.', 'f', 'l']
      ['.', 'c', 'x', 'x']).1 (by decide) (by decide),
   (generated_name_spec sample_env ['d', 'e', 's', 'i', 'g', 'n', '.', 'f', 'l']
      ['o', 'u', 't', '.', 'c', 'x', 'x']).2 (by decide) (by decide)⟩

/-- C9: from the initial globals, after `arg` has processed any sequence of switches, the
run is defined, `batch_mode == update_file + compile_file`, `batch_mode` is non-zero exactly
when one of `-u`, `-c`, `-cs` was among them, `compile_strings` is non-zero only if
`compile_file` is, and `batch_mode` lies between 0 and the number of calls.  A call given
`-d`, `-o` or `-h` leaves `batch_mode` as it was, in every state of the globals. -/
theorem batch_mode_counts_batch_switches (calls : List (Int × List (List Char) × Int))
    (h : ∀ c ∈ calls, IsSwitchCall c) :
    (∃ g, arg_calls calls Globals.initial = some g ∧
      g.batch_mode = g.update_file + g.compile_file ∧
      (g.batch_mode ≠ 0 ↔ ∃ c ∈ calls, GivesBatch c) ∧
      (g.compile_strings ≠ 0 → g.compile_file ≠ 0) ∧
      0 ≤ g.batch_mode ∧ g.batch_mode ≤ calls.length) ∧
    (∀ (argc : Int) (argv : List (List Char)) (i : Int) (g0 : Globals) (t : List Char),
      argvAt argv i = some (some ('-' :: t)) → (t = ['d'] ∨ t = ['o'] ∨ t = ['h']) →
      ∃ r i2 g2, arg argc argv i g0 = some (r, i2, g2) ∧ g2.batch_mode = g0.batch_mode) := by
  constructor
  · obtain ⟨g, f1, f2, f3, f4, f5, f6, f7⟩ := arg_calls_counters calls h Globals.initial
      (by decide) (by decide) (by decide) (by decide)
    refine ⟨g, f1, f5, ?_, ?_, by omega, ?_⟩
    · rw [f7]
      have : Globals.initial.batch_mode = 0 := rfl
      simp [this]
    · intro hne heq
      omega
    · have : Globals.initial.batch_mode = 0 := rfl
      omega
  · intro argc argv i g0 t ht hcase
    have hn : Char.ofNat 0 ∉ t := by
      rcases hcase with h1 | h1 | h1 <;> subst h1 <;> decide
    obtain ⟨r, i2, g2, e1, _, _, _, e5⟩ := arg_counters argc argv i g0 '-' t ht hn
    refine ⟨r, i2, g2, e1, ?_⟩
    rw [e5]
    rcases hcase with h1 | h1 | h1 <;> subst h1 <;> simp

/-- Witness of C9: the command line `fluid -d -cs -o out.cxx design.fl`, the index being at
each of its three switches in turn. -/
theorem batch_mode_counts_batch_switches_witness :
    (∀ c ∈ sample_calls, IsSwitchCall c) ∧
    ∃ g, arg_calls sample_calls Globals.initial = some g ∧
      g.batch_mode = g.update_file + g.compile_file ∧
      (g.batch_mode ≠ 0 ↔ ∃ c ∈ sample_calls, GivesBatch c) ∧
      (g.compile_strings ≠ 0 → g.compile_file ≠ 0) ∧
      0 ≤ g.batch_mode ∧ g.batch_mode ≤ sample_calls.length :=
  have hsw : ∀ c ∈ sample_calls, IsSwitchCall c := by
    intro c hc
    simp only [sample_calls, List.mem_cons, List.mem_singleton, List.not_mem_nil,
      or_false] at hc
    rcases hc with hc | hc | hc <;> subst hc
    · exact ⟨['d'], by decide, by decide⟩
    · exact ⟨['c', 's'], by decide, by decide⟩
    · exact ⟨['o'], by decide, by decide⟩
  ⟨hsw, (batch_mode_counts_batch_switches sample_calls hsw).1⟩

/-- C10: after `set_modflag(mf, mfc)` the flag `modflag` is unchanged when `mf == -1` and
equals `mf` when `mf != -1`, whatever `mfc` is. -/
theorem set_modflag_modflag (mf mfc : Int) (g : Globals) :
    (mf = -1 → (set_modflag mf mfc g).modflag = g.modflag) ∧
    (mf ≠ -1 → (set_modflag mf mfc g).modflag = mf) := by
  constructor
  · intro h
    subst h
    unfold set_modflag
    simp only [ne_eq, not_true_eq_false, if_false, false_and]
    split_ifs <;> rfl
  · intro h
    unfold set_modflag
    simp only [ne_eq, h, not_false_eq_true, if_true, true_and]
    split_ifs <;> rfl

/-- Witness of C10: `set_modflag(-1, 0)` on a modified design and `set_modflag(0, 1)` on the
same design. -/
theorem set_modflag_modflag_witness :
    (set_modflag (-1) 0 { Globals.initial with modflag := 1, modflag_c := 1 }).modflag = 1 ∧
    (set_modflag 0 1 { Globals.initial with modflag := 1, modflag_c := 1 }).modflag = 0 :=
  ⟨(set_modflag_modflag (-1) 0 { Globals.initial with modflag := 1, modflag_c := 1 }).1 rfl,
   (set_modflag_modflag 0 1 { Globals.initial with modflag := 1, modflag_c := 1 }).2
     (by decide)⟩

/-! ## Facts about the modification flags -/

/-- What `set_modflag(mf, mfc)` stores in `modflag`, in `modflag_c` and in no other global. -/
theorem set_modflag_eq (mf mfc : Int) (g : Globals) :
    set_modflag mf mfc g =
      { g with modflag := if mf ≠ -1 then mf else g.modflag,
               modflag_c := if mfc ≠ -1 then mfc
                            else if mf = 1 then 1 else g.modflag_c } := by
  unfold set_modflag
  by_cases h1 : mf = -1
  · subst h1
    by_cases h2 : mfc = -1
    · subst h2; simp
    · simp [h2]
  · by_cases h2 : mfc = -1
    · subst h2
      by_cases h3 : mf = 1
      · subst h3; simp
      · simp [h1, h3]
    · simp [h1, h2]

/-- The globals that `set_modflag` leaves alone. -/
theorem set_modflag_frame (mf mfc : Int) (g : Globals) :
    (set_modflag mf mfc g).batch_mode = g.batch_mode ∧
    (set_modflag mf mfc g).code_file_name = g.code_file_name ∧
    (set_modflag mf mfc g).header_file_name = g.header_file_name ∧
    (set_modflag mf mfc g).filename = g.filename := by
  rw [set_modflag_eq]
  exact ⟨rfl, rfl, rfl, rfl⟩

/-- The globals that `set_filename` leaves alone. -/
theorem set_filename_frame (c : Option (List Char)) (g : Globals) :
    (set_filename c g).batch_mode = g.batch_mode ∧
    (set_filename c g).code_file_name = g.code_file_name ∧
    (set_filename c g).header_file_name = g.header_file_name := by
  unfold set_filename
  simp only
  obtain ⟨h1, h2, h3, _⟩ := set_modflag_frame g.modflag (-1) { g with filename := c }
  exact ⟨h1, h2, h3⟩

/-- Neither `save_cb` nor the `set_filename` it calls touches `batch_mode`,
`code_file_name` or `header_file_name`. -/
theorem save_cb_frame (E : Env) (v : Int) (g : Globals) :
    (save_cb E v g).batch_mode = g.batch_mode ∧
    (save_cb E v g).code_file_name = g.code_file_name ∧
    (save_cb E v g).header_file_name = g.header_file_name := by
  obtain ⟨a1, a2, a3⟩ := set_filename_frame (some E.chooser_filename) g
  unfold save_cb
  simp only
  split_ifs
  all_goals first
    | exact ⟨rfl, rfl, rfl⟩
    | exact ⟨a1, a2, a3⟩

/-! ## Claims about the modification flags -/

/-- C11: after `set_modflag(mf, mfc)` the flag `modflag_c` equals `mfc` when `mfc != -1`;
when `mfc == -1` it is 1 for `mf == 1` and unchanged for every other `mf`. -/
theorem set_modflag_modflag_c (mf mfc : Int) (g : Globals) :
    (mfc ≠ -1 → (set_modflag mf mfc g).modflag_c = mfc) ∧
    (mfc = -1 → mf = 1 → (set_modflag mf mfc g).modflag_c = 1) ∧
    (mfc = -1 → mf ≠ 1 → (set_modflag mf mfc g).modflag_c = g.modflag_c) := by
  rw [set_modflag_eq]
  refine ⟨fun h => ?_, fun h1 h2 => ?_, fun h1 h2 => ?_⟩
  · simp [h]
  · simp [h1, h2]
  · simp [h1, h2]

/-- Witness of C11: `set_modflag(0, 0)` and `set_modflag(1)` on a design whose code is out of
date, `set_modflag(0)` and `set_modflag(-1)` on the same design. -/
theorem set_modflag_modflag_c_witness :
    (set_modflag 0 0 { Globals.initial with modflag_c := 1 }).modflag_c = 0 ∧
    (set_modflag 1 (-1) Globals.initial).modflag_c = 1 ∧
    (set_modflag 0 (-1) { Globals.initial with modflag_c := 1 }).modflag_c = 1 ∧
    (set_modflag (-1) (-1) { Globals.initial with modflag_c := 1 }).modflag_c = 1 :=
  ⟨(set_modflag_modflag_c 0 0 { Globals.initial with modflag_c := 1 }).1 (by decide),
   (set_modflag_modflag_c 1 (-1) Globals.initial).2.1 rfl rfl,
   (set_modflag_modflag_c 0 (-1) { Globals.initial with modflag_c := 1 }).2.2 rfl (by decide),
   (set_modflag_modflag_c (-1) (-1) { Globals.initial with modflag_c := 1 }).2.2 rfl
     (by decide)⟩

/-- C12: when `save_cb` reaches `write_file(c)` and the file is written, then for `v != 2`
the design is clean and the code out of date (`modflag == 0`, `modflag_c == 1`), and for
`v == 2` none of `filename`, `modflag`, `modflag_c` is changed. -/
theorem save_cb_flags (E : Env) (v : Int) (g : Globals) (c : List Char)
    (hc : save_cb_file E v g = some c) (hw : E.write_file c ≠ 0) :
    (v ≠ 2 → (save_cb E v g).modflag = 0 ∧ (save_cb E v g).modflag_c = 1) ∧
    (v = 2 → (save_cb E v g).filename = g.filename ∧
      (save_cb E v g).modflag = g.modflag ∧ (save_cb E v g).modflag_c = g.modflag_c) := by
  unfold save_cb_file at hc
  unfold save_cb
  simp only at hc ⊢
  split_ifs at hc with h1 h2 h3
  · simp only [Option.some.injEq] at hc
    subst hc
    rw [if_pos h1, if_neg h2, if_neg h3, if_neg hw]
    constructor
    · intro hv
      rw [if_pos hv, set_modflag_eq]
      simp
    · intro hv
      rw [if_neg (not_not.mpr hv)]
      simp [hv]
  · simp only [Option.some.injEq] at hc
    subst hc
    rw [if_neg h1, if_neg hw]
    constructor
    · intro hv
      rw [if_pos hv, set_modflag_eq]
      simp
    · intro hv
      rw [if_neg (not_not.mpr hv)]
      exact ⟨rfl, rfl, rfl⟩

/-- Witness of C12: `Save` (`v == 0`) and `Save A Copy` (`v == 2`) of a modified design
without a file name, the chooser answering `new.fl`. -/
theorem save_cb_flags_witness :
    ((save_cb sample_env_save 0 { Globals.initial with modflag := 1 }).modflag = 0 ∧
      (save_cb sample_env_save 0 { Globals.initial with modflag := 1 }).modflag_c = 1) ∧
    ((save_cb sample_env_save 2 { Globals.initial with modflag := 1 }).filename = none ∧
      (save_cb sample_env_save 2 { Globals.initial with modflag := 1 }).modflag = 1 ∧
      (save_cb sample_env_save 2 { Globals.initial with modflag := 1 }).modflag_c = 0) :=
  ⟨(save_cb_flags sample_env_save 0 { Globals.initial with modflag := 1 }
      ['n', 'e', 'w', '.', 'f', 'l'] (by decide) (by decide)).1 (by decide),
   (save_cb_flags sample_env_save 2 { Globals.initial with modflag := 1 }
      ['n', 'e', 'w', '.', 'f', 'l'] (by decide) (by decide)).2 rfl⟩

/-- C13 (counterexample): in batch mode a run in which `write_code` succeeds returns with
`modflag_c` still 1; and in interactive mode a run on a modified design without a file name,
which saves the design first, returns with `modflag` changed from 1 to 0. -/
theorem write_code_files_flags_not_cleared :
    (write_code_names sample_env sample_globals_batch
        = some (['o', 'k', '.', 'c', 'x', 'x'], ['d', 'e', 's', 'i', 'g', 'n', '.', 'h']) ∧
      sample_env.write_code ['o', 'k', '.', 'c', 'x', 'x']
        ['d', 'e', 's', 'i', 'g', 'n', '.', 'h'] = 1 ∧
      sample_globals_batch.modflag_c = 1 ∧
      write_code_files sample_env sample_globals_batch
        = Outcome.returned 0
            { sample_globals_batch with i18n_program := ['d', 'e', 's', 'i', 'g', 'n'] }) ∧
    (sample_globals_unsaved.batch_mode = 0 ∧
      write_code_names sample_env_save sample_globals_unsaved
        = some (['o', 'k', '.', 'c', 'x', 'x'], ['n', 'e', 'w', '.', 'h']) ∧
      sample_env_save.write_code ['o', 'k', '.', 'c', 'x', 'x'] ['n', 'e', 'w', '.', 'h'] = 1 ∧
      sample_globals_unsaved.modflag = 1 ∧
      ∃ g2, write_code_files sample_env_save sample_globals_unsaved = Outcome.returned 0 g2 ∧
        g2.modflag = 0 ∧ g2.modflag_c = 0) := by
  refine ⟨⟨by decide, by decide, by decide, by decide⟩,
    by decide, by decide, by decide, by decide, ?_⟩
  exact ⟨_, rfl, by decide, by decide⟩

/-- C13 (amended): every run of `write_code_files` that reaches `write_code(cname, hname)`
and in which `write_code` succeeds returns 0.  In interactive mode (`batch_mode == 0`)
`modflag_c` is 0 afterwards, and `modflag` is unchanged when the design had a file name on
entry.  In batch mode a design with a file name keeps both flags. -/
theorem write_code_files_flags (E : Env) (g : Globals) (cname hname : List Char)
    (hn : write_code_names E g = some (cname, hname)) (hx : E.write_code cname hname ≠ 0) :
    ∃ g2, write_code_files E g = Outcome.returned 0 g2 ∧
      (g.batch_mode = 0 →
        g2.modflag_c = 0 ∧ (g.filename ≠ none → g2.modflag = g.modflag)) ∧
      (g.batch_mode ≠ 0 → g.filename ≠ none →
        g2.modflag_c = g.modflag_c ∧ g2.modflag = g.modflag) := by
  have hframe := save_cb_frame E 0 g
  unfold write_code_names at hn
  unfold write_code_files
  simp only at hn ⊢
  generalize hg1 : (if g.filename = none then save_cb E 0 g else g) = g1 at hn ⊢
  have hb : g1.batch_mode = g.batch_mode := by
    rw [← hg1]; split_ifs
    · exact hframe.1
    · rfl
  have hkeep : g.filename ≠ none → g1 = g := by
    intro h; rw [← hg1, if_neg h]
  cases hf : g1.filename with
  | none => simp [hf] at hn
  | some fname =>
    cases hcf : g1.code_file_name with
    | none => simp [hf, hcf] at hn
    | some cfn =>
      cases hhf : g1.header_file_name with
      | none => simp [hf, hcf, hhf] at hn
      | some hfn =>
        simp only [hf, hcf, hhf, Option.some.injEq, Prod.mk.injEq] at hn
        obtain ⟨hc1, hc2⟩ := hn
        subst hc1 hc2
        simp only [hcf, hhf, hb]
        by_cases hbm : g.batch_mode = 0
        · rw [if_neg (not_not.mpr hbm), if_neg hx, set_modflag_eq]
          refine ⟨_, rfl, fun _ => ⟨by simp, fun h => ?_⟩, fun h => absurd hbm h⟩
          simp [hkeep h]
        · rw [if_pos hbm, if_neg hx]
          refine ⟨_, rfl, fun h => absurd h hbm, fun _ h => ?_⟩
          simp [hkeep h]

/-- Witness of C13 (amended): `design.fl` with the code file name `ok.cxx`, in interactive
mode and in batch mode. -/
theorem write_code_files_flags_witness :
    (∃ g2, write_code_files sample_env sample_globals_modified = Outcome.returned 0 g2 ∧
      g2.modflag_c = 0 ∧ g2.modflag = 1) ∧
    (∃ g2, write_code_files sample_env sample_globals_batch = Outcome.returned 0 g2 ∧
      g2.modflag_c = 1 ∧ g2.modflag = 0) :=
  have h1 := write_code_files_flags sample_env sample_globals_modified
    ['o', 'k', '.', 'c', 'x', 'x'] ['d', 'e', 's', 'i', 'g', 'n', '.', 'h']
    (by decide) (by decide)
  have h2 := write_code_files_flags sample_env sample_globals_batch
    ['o', 'k', '.', 'c', 'x', 'x'] ['d', 'e', 's', 'i', 'g', 'n', '.', 'h']
    (by decide) (by decide)
  ⟨h1.elim fun g2 h => ⟨g2, h.1, (h.2.1 rfl).1, (h.2.1 rfl).2 (by decide)⟩,
   h2.elim fun g2 h => ⟨g2, h.1, (h.2.2 (by decide) (by decide)).1,
     (h.2.2 (by decide) (by decide)).2⟩⟩

/-! ## Facts about the matrix stack -/

theorem pushes_cons_push (l : List MatrixCall) :
    pushes (MatrixCall.push :: l) = pushes l + 1 := by
  simp [pushes]

theorem pops_cons_push (l : List MatrixCall) : pops (MatrixCall.push :: l) = pops l := by
  simp [pops]

theorem pushes_cons_pop (l : List MatrixCall) : pushes (MatrixCall.pop :: l) = pushes l := by
  simp [pushes]

theorem pops_cons_pop (l : List MatrixCall) : pops (MatrixCall.pop :: l) = pops l + 1 := by
  simp [pops]

/-- A run of calls on a driver that holds `s0 + k` saved matrices, the upper `k` of them and
the current matrix being `m0`: when the run never pops more than `k` above its pushes and
never nests deeper than the stack, the current matrix stays `m0` and `sptr` moves by the
difference of pushes and pops. -/
theorem matrix_calls_invariant (m0 : matrix) (s0 : Nat) :
    ∀ (l : List MatrixCall) (k : Nat) (d : Fl_Graphics_Driver),
      d.stack.length = 32 → d.sptr = ((s0 + k : Nat) : Int) → d.m = m0 →
      (∀ j, j < k → d.stack[s0 + j]? = some m0) →
      (∀ n, n ≤ l.length → pops (l.take n) ≤ k + pushes (l.take n)) →
      (∀ n, n ≤ l.length → s0 + k + pushes (l.take n) ≤ pops (l.take n) + 32) →
      (matrix_calls l d).m = m0 ∧
      ((matrix_calls l d).sptr : Int) + (pops l : Int) = ((s0 + k + pushes l : Nat) : Int) := by
  intro l
  induction l with
  | nil =>
    intro k d _ hs hm _ _ _
    simp [matrix_calls, hm, hs, pushes, pops]
  | cons c r ih =>
    intro k d hlen hs hm hst hbal hcap
    cases c with
    | push =>
      have h1 := hcap 1 (by simp)
      simp only [List.take_succ_cons, List.take_zero, pushes_cons_push, pops_cons_push] at h1
      have h1' : s0 + k < 32 := by
        have : pushes ([] : List MatrixCall) = 0 := rfl
        have : pops ([] : List MatrixCall) = 0 := rfl
        omega
      have hpush : d.push_matrix =
          { d with stack := d.stack.set (s0 + k) d.m, sptr := ((s0 + k + 1 : Nat) : Int) } := by
        unfold Fl_Graphics_Driver.push_matrix Fl_Graphics_Driver.matrix_stack_size
          FL_MATRIX_STACK_SIZE
        have hidx : d.sptr.toNat = s0 + k := by rw [hs]; omega
        rw [if_neg (by omega), hidx, hs]
        simp
      have hres := ih (k + 1) d.push_matrix
        (by rw [hpush]; simp [hlen])
        (by rw [hpush]; simp; omega)
        (by rw [hpush]; exact hm)
        (by
          intro j hj
          rw [hpush]
          simp only
          rcases Nat.lt_succ_iff_lt_or_eq.mp hj with hlt | heq
          · rw [List.getElem?_set_ne (by omega)]
            exact hst j hlt
          · subst heq
            rw [List.getElem?_set_self (by omega), hm])
        (by
          intro n hn
          have := hbal (n + 1) (by simpa using hn)
          simp only [List.take_succ_cons, pushes_cons_push, pops_cons_push] at this
          omega)
        (by
          intro n hn
          have := hcap (n + 1) (by simpa using hn)
          simp only [List.take_succ_cons, pushes_cons_push, pops_cons_push] at this
          omega)
      simp only [matrix_calls, pushes_cons_push, pops_cons_push]
      refine ⟨hres.1, ?_⟩
      have := hres.2
      push_cast at this ⊢
      omega
    | pop =>
      have h1 := hbal 1 (by simp)
      simp only [List.take_succ_cons, List.take_zero, pushes_cons_pop, pops_cons_pop] at h1
      have hk : 1 ≤ k := by
        have : pushes ([] : List MatrixCall) = 0 := rfl
        have : pops ([] : List MatrixCall) = 0 := rfl
        omega
      have htop : d.stack[s0 + (k - 1)]? = some m0 := hst (k - 1) (by omega)
      have hidx : (d.sptr - 1).toNat = s0 + (k - 1) := by rw [hs]; omega
      have hpop : d.pop_matrix =
          { d with sptr := ((s0 + (k - 1) : Nat) : Int), m := m0 } := by
        unfold Fl_Graphics_Driver.pop_matrix
        rw [if_neg (by rw [hs]; omega), hidx, htop]
        simp only [Option.getD_some]
        congr 1
        rw [hs]; omega
      have hres := ih (k - 1) d.pop_matrix
        (by rw [hpop]; exact hlen)
        (by rw [hpop])
        (by rw [hpop])
        (by
          intro j hj
          rw [hpop]
          exact hst j (by omega))
        (by
          intro n hn
          have := hbal (n + 1) (by simpa using hn)
          simp only [List.take_succ_cons, pushes_cons_pop, pops_cons_pop] at this
          omega)
        (by
          intro n hn
          have := hcap (n + 1) (by simpa using hn)
          simp only [List.take_succ_cons, pushes_cons_pop, pops_cons_pop] at this
          omega)
      simp only [matrix_calls, pushes_cons_pop, pops_cons_pop]
      refine ⟨hres.1, ?_⟩
      have := hres.2
      push_cast at this ⊢
      omega

/-! ## Claims about `Fl_Graphics_Driver` -/

/-- C14: on a driver whose stack has `FL_MATRIX_STACK_SIZE` entries, every sequence of
`push_matrix` / `pop_matrix` calls that is balanced, holds equally many pushes and pops and
never nests the stack deeper than `matrix_stack_size` leaves the current matrix `m` and
`sptr` as they were before it. -/
theorem matrix_stack_balance (d : Fl_Graphics_Driver) (calls : List MatrixCall)
    (hlen : (d.stack.length : Int) = Fl_Graphics_Driver.stack_length) (hs : 0 ≤ d.sptr)
    (hbal : Balanced calls) (heq : pushes calls = pops calls)
    (hcap : NestsWithin Fl_Graphics_Driver.matrix_stack_size d.sptr calls) :
    (matrix_calls calls d).m = d.m ∧ (matrix_calls calls d).sptr = d.sptr := by
  have hlen32 : d.stack.length = 32 := by
    unfold Fl_Graphics_Driver.stack_length FL_MATRIX_STACK_SIZE at hlen
    omega
  have hsn : d.sptr = ((d.sptr.toNat + 0 : Nat) : Int) := by omega
  have h := matrix_calls_invariant d.m d.sptr.toNat calls 0 d hlen32 hsn rfl
    (fun j hj => absurd hj (Nat.not_lt_zero j))
    (fun n hn => by have := hbal n hn; omega)
    (fun n hn => by
      have := hcap n hn
      unfold Fl_Graphics_Driver.matrix_stack_size FL_MATRIX_STACK_SIZE at this
      omega)
  refine ⟨h.1, ?_⟩
  have h2 := h.2
  push_cast at h2
  omega

/-- Witness of C14: three nested pushes and pops on a driver that already holds 2 saved
matrices. -/
theorem matrix_stack_balance_witness :
    (matrix_calls [MatrixCall.push, MatrixCall.push, MatrixCall.pop, MatrixCall.push,
        MatrixCall.push, MatrixCall.pop, MatrixCall.pop, MatrixCall.pop] sample_driver).m
      = sample_driver.m ∧
    (matrix_calls [MatrixCall.push, MatrixCall.push, MatrixCall.pop, MatrixCall.push,
        MatrixCall.push, MatrixCall.pop, MatrixCall.pop, MatrixCall.pop] sample_driver).sptr
      = sample_driver.sptr :=
  matrix_stack_balance sample_driver
    [MatrixCall.push, MatrixCall.push, MatrixCall.pop, MatrixCall.push,
      MatrixCall.push, MatrixCall.pop, MatrixCall.pop, MatrixCall.pop]
    (by decide) (by decide) (by decide) (by decide) (by decide)

/-- C15: after the setter `scale(f)` the stored factor is positive, and for every `f ≤ 0` it
is the minimum positive value. -/
theorem scale_set_positive (f : ℚ) (d : Fl_Graphics_Driver) :
    0 < (d.scale_set f).scale ∧
    (f ≤ 0 → (d.scale_set f).scale = Fl_Graphics_Driver.scale_min) ∧
    0 < Fl_Graphics_Driver.scale_min := by
  have hmin : (0 : ℚ) < Fl_Graphics_Driver.scale_min := by
    unfold Fl_Graphics_Driver.scale_min; norm_num
  unfold Fl_Graphics_Driver.scale_set Fl_Graphics_Driver.scale
  simp only
  refine ⟨?_, fun hf => ?_, hmin⟩
  · split_ifs with h
    · exact hmin
    · exact lt_of_lt_of_le hmin (not_lt.mp h)
  · rw [if_pos (lt_of_le_of_lt hf hmin)]

/-- Witness of C15: the setter called with `-2` and with `0`. -/
theorem scale_set_positive_witness :
    (sample_driver.scale_set (-2)).scale = Fl_Graphics_Driver.scale_min ∧
    (sample_driver.scale_set 0).scale = Fl_Graphics_Driver.scale_min :=
  ⟨(scale_set_positive (-2) sample_driver).2.1 (by norm_num),
   (scale_set_positive 0 sample_driver).2.1 le_rfl⟩

/-- C16: `matrix_stack_size == FL_MATRIX_STACK_SIZE == 32` is the length of `stack`,
`FL_REGION_STACK_SIZE == 10` is the length of `rstack`, and `region_stack_max == 9` is the
highest valid index into `rstack`: `region_stack_max + 1` is the length of the array. -/
theorem stack_capacities :
    Fl_Graphics_Driver.matrix_stack_size = FL_MATRIX_STACK_SIZE ∧
    FL_MATRIX_STACK_SIZE = 32 ∧
    Fl_Graphics_Driver.stack_length = Fl_Graphics_Driver.matrix_stack_size ∧
    FL_REGION_STACK_SIZE = 10 ∧
    Fl_Graphics_Driver.rstack_length = FL_REGION_STACK_SIZE ∧
    Fl_Graphics_Driver.region_stack_max = 9 ∧
    Fl_Graphics_Driver.region_stack_max + 1 = Fl_Graphics_Driver.rstack_length ∧
    ∀ i : Int, (0 ≤ i ∧ i < Fl_Graphics_Driver.rstack_length) ↔
      (0 ≤ i ∧ i ≤ Fl_Graphics_Driver.region_stack_max) := by
  refine ⟨rfl, rfl, rfl, rfl, rfl, rfl, rfl, fun i => ?_⟩
  unfold Fl_Graphics_Driver.rstack_length Fl_Graphics_Driver.region_stack_max
    FL_REGION_STACK_SIZE
  omega

end Fltk
